import Mathlib

/-!
Verification development for the jobLens search-and-scoring pipeline
(`src/core/engine.py`, `src/core/provider_registry.py`).

The Python source is shallowly embedded: pure helpers become Lean functions
on `String` / `List Char`, Python numbers become `ℚ`/`ℤ`/`ℕ` (all the
arithmetic the scoring performs is exact on the rationals used here;
real-number arithmetic is modelled exactly over `ℚ`), `dict` lookups become
association-list lookups, and Python's `int(...)` conversion is modelled as
truncation toward zero.  Python string operations (`lower`, `title`,
`\w`, `\s`, `[a-zA-Z0-9]`) are modelled over the ASCII range, matching the
source's behaviour on ASCII data.
-/

/-! ### Character and string helpers -/

/-- ASCII lower-casing of one character (Python `str.lower` on ASCII). -/
def lcChar (c : Char) : Char :=
  if 'A' ≤ c ∧ c ≤ 'Z' then Char.ofNat (c.toNat + 32) else c

/-- ASCII upper-casing of one character. -/
def ucChar (c : Char) : Char :=
  if 'a' ≤ c ∧ c ≤ 'z' then Char.ofNat (c.toNat - 32) else c

/-- Python `str.lower()` (ASCII model). -/
def pyLower (s : String) : String := ⟨s.data.map lcChar⟩

/-- The character class `[a-zA-Z0-9]` of the token-boundary regex in
`JobSearchEngine._has_skill`. -/
def isAsciiAlnumB (c : Char) : Bool :=
  ('a' ≤ c && c ≤ 'z') || ('A' ≤ c && c ≤ 'Z') || ('0' ≤ c && c ≤ '9')

def isAsciiAlphaB (c : Char) : Bool :=
  ('a' ≤ c && c ≤ 'z') || ('A' ≤ c && c ≤ 'Z')

def isDigitB (c : Char) : Bool := '0' ≤ c && c ≤ '9'

/-- Python regex `\s` (ASCII model). -/
def isWsB (c : Char) : Bool :=
  c = ' ' || c = '\t' || c = '\n' || c = '\r' || c = '\x0b' || c = '\x0c'

/-- One step of Python `str.title()`: the Boolean records whether the
previous character was alphabetic. -/
def titleGo : Bool → List Char → List Char
  | _, [] => []
  | prevAlpha, c :: rest =>
    let isAl := isAsciiAlphaB c
    (if isAl then (if prevAlpha then lcChar c else ucChar c) else c) :: titleGo isAl rest

/-- Python `str.title()` (ASCII model). -/
def pyTitle (s : String) : String := ⟨titleGo false s.data⟩

/-- Python substring containment `cand in text` on char lists: a prefix
match at the current position, or a match further right. -/
def containsSub : List Char → List Char → Bool
  | [], cand => cand.isPrefixOf []
  | x :: rest, cand => cand.isPrefixOf (x :: rest) || containsSub rest cand

/-- Substring containment on strings (Python `kw in text`). -/
def containsSubStr (text kw : String) : Bool := containsSub text.data kw.data

/-! ### Skill matching (`JobSearchEngine._has_skill`)

The regex `(?:^|[^a-zA-Z0-9])cand(?:$|[^a-zA-Z0-9])` searched by `re.search`
matches iff `cand` occurs at some position whose left neighbour is absent or
non-alphanumeric and whose right neighbour is absent or non-alphanumeric.
`tokenFrom` scans the text carrying the previous character. -/

/-- Left-boundary test: no previous character, or a non-alphanumeric one. -/
def boundaryB : Option Char → Bool
  | none => true
  | some c => !isAsciiAlnumB c

/-- Right-boundary test on the remaining text. -/
def tailBoundary : List Char → Bool
  | [] => true
  | c :: _ => !isAsciiAlnumB c

/-- The last character of `pre`, else the carried previous character. -/
def lastOpt (prev : Option Char) : List Char → Option Char
  | [] => prev
  | a :: rest => lastOpt (some a) rest

/-- Scan for a token-bounded occurrence of `cand`, with `prev` the character
immediately before the current position (none at the start of the text):
a bounded match here, or a bounded match further right. -/
def tokenFrom : Option Char → List Char → List Char → Bool
  | prev, [], cand =>
    boundaryB prev && cand.isPrefixOf [] && tailBoundary (([] : List Char).drop cand.length)
  | prev, x :: rest, cand =>
    (boundaryB prev && cand.isPrefixOf (x :: rest) &&
        tailBoundary ((x :: rest).drop cand.length)) ||
      tokenFrom (some x) rest cand

/-- A profile / corpus skill entry: a bare string or a bilingual dict
`{"en": …, "de": …}`. -/
inductive SkillEntry where
  | plain (s : String)
  | biling (en de : String)
deriving DecidableEq

/-- The `en` value for dict entries, the string itself otherwise
(`s["en"] if isinstance(s, dict) else s`). -/
def labelOf : SkillEntry → String
  | .plain s => s
  | .biling en _ => en

/-- Matching of one lowered candidate against the lowered text: the fixed
exception list matches by substring containment, everything else requires
token boundaries. -/
def hasSkillCand (textL candL : List Char) : Bool :=
  if candL = "c++".data ∨ candL = "c#".data ∨ candL = ".net".data then
    containsSub textL candL
  else
    tokenFrom none textL candL

/-- Embedding of `JobSearchEngine._has_skill`: the text is lowered, every candidate value
of the entry is lowered, and any candidate match suffices. -/
def hasSkillStr (text : String) (entry : SkillEntry) : Bool :=
  let tl := (pyLower text).data
  match entry with
  | .plain s => hasSkillCand tl (pyLower s).data
  | .biling en de => hasSkillCand tl (pyLower en).data || hasSkillCand tl (pyLower de).data

example : hasSkillStr "Golang developer" (.plain "Go") = false := by decide
example : hasSkillStr "We use C++, daily" (.plain "C++") = true := by decide
example : hasSkillStr "go 2 market" (.plain "Go") = true := by decide
example : hasSkillStr "django" (.plain "Django") = true := by decide

/-! ### Data model

`JobRecord` fields used by the engine.  `job_id` and `link` are `Option`
(absent keys); Python falsiness of a present string is the empty string. -/

structure Job where
  job_id : Option String := none
  link : Option String := none
  provider : String := ""
  title : String := ""
  company : String := ""
  location : String := ""
  description : String := ""
  salary_hint : String := ""
  work_location_type : String := ""
  employment_type : String := ""
  posted_at_relative : String := ""
  scraped_at : String := ""
  search_criteria : String := ""
  matched_roles : String := ""
  matching_skills : String := ""
  missing_skills : String := ""
  detected_languages : String := ""
  relevance_score : ℤ := 0
deriving DecidableEq

/-- The `CandidateProfile` (`my_profile.json`): the categorized skill lists the
engine reads, the role list, and the known-company list. -/
structure Profile where
  programming : List SkillEntry := []
  testing : List SkillEntry := []
  embedded : List SkillEntry := []
  ai_ml : List SkillEntry := []
  ai_tools : List SkillEntry := []
  roles : List SkillEntry := []
  known_companies : List String := []
deriving DecidableEq

def emptyProfile : Profile := {}

/-- The skill corpus `global_skills_raw`: a JSON object mapping category
names to skill-entry lists, modelled as an association list in key order. -/
abbrev Corpus := List (String × List SkillEntry)

/-- Lookup `self.profile.get("skills", {}).get(cat, [])`. -/
def profileSkills (p : Profile) : String → List SkillEntry
  | "programming" => p.programming
  | "testing" => p.testing
  | "embedded" => p.embedded
  | "ai_ml" => p.ai_ml
  | "ai_tools" => p.ai_tools
  | "roles" => p.roles
  | _ => []

/-- Lookup `self.global_skills_raw.get(key, [])`. -/
def corpusGet (c : Corpus) (key : String) : List SkillEntry :=
  match c.find? (fun q => q.1 == key) with
  | some q => q.2
  | none => []

/-! ### Language detection (`JobSearchEngine._detect_language`) -/

def deWords : List (List Char) :=
  ["der", "die", "das", "und", "mit", "von", "den", "auf", "ist"].map String.data

def enWords : List (List Char) :=
  ["the", "and", "with", "from", "for", "that", "this", "is", "are"].map String.data

/-- The class `\w` of the word-splitting regex (ASCII model). -/
def isWordChar (c : Char) : Bool := isAsciiAlnumB c || c = '_'

/-- Maximal runs of word characters (`re.findall(r"\b\w{2,}\b", …)` keeps
exactly the maximal `\w`-runs of length ≥ 2; the length filter is applied by
the caller). `cur` is the reversed run being accumulated. -/
def collectWords : List Char → List Char → List (List Char)
  | [], cur => if cur.isEmpty then [] else [cur.reverse]
  | c :: rest, cur =>
    if isWordChar c then collectWords rest (c :: cur)
    else if cur.isEmpty then collectWords rest []
    else cur.reverse :: collectWords rest []

def detectLanguage (text : String) : String :=
  let tl := (pyLower text).data
  let ws := (collectWords tl []).filter (fun w => 2 ≤ w.length)
  let deScore := (ws.filter (fun w => w ∈ deWords)).length
  let enScore := (ws.filter (fun w => w ∈ enWords)).length
  if enScore < deScore then "de" else "en"

/-! ### Salary-hint extraction

The regex
`(?:Salary|Gehalt|Stundensatz|Vergütung):?\s*([€$]\s?\d{2,3}[kK]|\d{2,3}[.,]\d{3}\s?[€$]|EUR)`
searched case-insensitively over the raw description
(`_enrich_job_data`).  The scanner below reproduces `re.search`'s
leftmost-match, alternation-order and greedy-quantifier behaviour for this
pattern (the label alternatives are mutually exclusive at any one position,
and every `\s`-optional element is followed by a non-`\s` requirement, so
only the `\d{2,3}` quantifier ever needs backtracking). -/

/-- Case-insensitive literal-prefix match; returns the rest of the text. -/
def matchCI : List Char → List Char → Option (List Char)
  | [], cs => some cs
  | _ :: _, [] => none
  | p :: ps, c :: cs => if lcChar c = lcChar p then matchCI ps cs else none

/-- Exactly `n` digits; returns them and the rest. -/
def takeDigits : Nat → List Char → Option (List Char × List Char)
  | 0, cs => some ([], cs)
  | _ + 1, [] => none
  | n + 1, c :: cs =>
    if isDigitB c then (takeDigits n cs).map (fun q => (c :: q.1, q.2)) else none

/-- Suffix `[kK]` after the digits of the first alternative. -/
def digitsThenK (n : Nat) (cs : List Char) : Option (List Char × List Char) :=
  (takeDigits n cs).bind fun q =>
    match q.2 with
    | k :: r => if k = 'k' ∨ k = 'K' then some (q.1 ++ [k], r) else none
    | [] => none

/-- First group alternative `[€$]\s?\d{2,3}[kK]`. -/
def matchAlt1 : List Char → Option (List Char × List Char)
  | c :: cs =>
    if c = '€' ∨ c = '$' then
      let (wsPart, cs2) :=
        match cs with
        | w :: rest => if isWsB w then ([w], rest) else ([], w :: rest)
        | [] => ([], [])
      match (digitsThenK 3 cs2).orElse (fun _ => digitsThenK 2 cs2) with
      | some (d, r) => some (c :: wsPart ++ d, r)
      | none => none
    else none
  | [] => none

/-- Continuation `[.,]\d{3}\s?[€$]` after the leading digits of the second
alternative. -/
def matchAlt2Tail (d : List Char) : List Char → Option (List Char × List Char)
  | sep :: cs2 =>
    if sep = '.' ∨ sep = ',' then
      (takeDigits 3 cs2).bind fun q =>
        let (wsPart, r2) :=
          match q.2 with
          | w :: rest => if isWsB w then ([w], rest) else ([], w :: rest)
          | [] => ([], [])
        match r2 with
        | c :: rr => if c = '€' ∨ c = '$' then some (d ++ sep :: q.1 ++ wsPart ++ [c], rr) else none
        | [] => none
    else none
  | [] => none

/-- Second group alternative `\d{2,3}[.,]\d{3}\s?[€$]` (greedy leading
digits: three, then two). -/
def matchAlt2 (cs : List Char) : Option (List Char × List Char) :=
  ((takeDigits 3 cs).bind fun q => matchAlt2Tail q.1 q.2).orElse
    (fun _ => (takeDigits 2 cs).bind fun q => matchAlt2Tail q.1 q.2)

/-- Third group alternative `EUR` (case-insensitive, captures the original
characters). -/
def matchAltEUR : List Char → Option (List Char × List Char)
  | c1 :: c2 :: c3 :: r =>
    if lcChar c1 = 'e' ∧ lcChar c2 = 'u' ∧ lcChar c3 = 'r' then some ([c1, c2, c3], r) else none
  | _ => none

/-- The capture group, alternatives in regex order. -/
def matchGroup (cs : List Char) : Option (List Char × List Char) :=
  (matchAlt1 cs).orElse (fun _ => (matchAlt2 cs).orElse (fun _ => matchAltEUR cs))

def salaryLabels : List (List Char) :=
  ["salary", "gehalt", "stundensatz", "vergütung"].map String.data

/-- Try the whole pattern at the current position; returns the capture. -/
def matchSalaryAt (cs : List Char) : Option (List Char) :=
  (salaryLabels.firstM (fun l => matchCI l cs)).bind fun r1 =>
    let r2 := (match r1 with | ':' :: t => t | other => other).dropWhile isWsB
    (matchGroup r2).map (·.1)

/-- Like `re.search`: leftmost position at which the pattern matches. -/
def searchSalary : List Char → Option (List Char)
  | [] => none
  | c :: rest => (matchSalaryAt (c :: rest)).orElse (fun _ => searchSalary rest)

/-- Result `sal.group(1) if sal else ""`. -/
def extractSalary (desc : String) : String :=
  match searchSalary desc.data with
  | some g => ⟨g⟩
  | none => ""

example : extractSalary "Contract. Gehalt: 95.000 € fixed" = "95.000 €" := by decide
example : extractSalary "Salary: $120k plus bonus" = "$120k" := by decide
example : extractSalary "Python developer wanted" = "" := by decide

/-! ### Sorting and first-occurrence deduplication helpers

Python `sorted` on strings is the lexicographic code-point order, which is
Lean's `String` order.  Python `set(...)` keeps one copy of each value;
`dedupBy` keeps first occurrences (the resulting *set* of values is what
`sorted` consumes, so the pre-sort order is irrelevant there; where the
source iterates a `set` directly its CPython iteration order is
hash-dependent, and is modelled here as first-discovery order). -/

def insertSorted (s : String) : List String → List String
  | [] => [s]
  | x :: xs => if s ≤ x then s :: x :: xs else x :: insertSorted s xs

def sortStr : List String → List String
  | [] => []
  | x :: xs => insertSorted x (sortStr xs)

/-- Keep the first occurrence of each key, given already-seen keys. -/
def dedupBy {α : Type} (key : α → String) : List String → List α → List α
  | _, [] => []
  | seen, x :: rest =>
    if key x ∈ seen then dedupBy key seen rest
    else x :: dedupBy key (key x :: seen) rest

/-! ### Skill/role/missing lists (`JobSearchEngine._enrich_job_data`) -/

/-- The concatenated scoring text
`" ".join([title, company, description, location]).lower()`. -/
def scoringText (j : Job) : String :=
  pyLower (String.intercalate " " [j.title, j.company, j.description, j.location])

/-- The list `found_mine`: title-cased labels of the candidate's skills present in
the text, category by category, duplicates kept. -/
def foundMineLabels (p : Profile) (text : String) : List String :=
  ["programming", "testing", "embedded", "ai_ml", "ai_tools"].flatMap fun cat =>
    ((profileSkills p cat).filter (hasSkillStr text)).map (fun s => pyTitle (labelOf s))

/-- Computes `sorted(set(found_mine))[:15]`. -/
def matchingSkillsList (p : Profile) (text : String) : List String :=
  (sortStr (dedupBy id [] (foundMineLabels p text))).take 15

/-- Computes `", ".join(sorted(set(matched_roles_list)))` (labels not title-cased). -/
def rolesString (p : Profile) (text : String) : String :=
  String.intercalate ", " (sortStr (dedupBy id [] ((p.roles.filter (hasSkillStr text)).map labelOf)))

/-- The set `found_global` as discovered while iterating the corpus values. -/
def foundGlobalLabels (c : Corpus) (text : String) : List String :=
  c.flatMap fun q => (q.2.filter (hasSkillStr text)).map (fun s => pyTitle (labelOf s))

/-- Computes `[s for s in found_global if s not in found_mine][:10]`
(the set iteration order modelled as first-discovery order). -/
def missingSkillsList (p : Profile) (c : Corpus) (text : String) : List String :=
  ((dedupBy id [] (foundGlobalLabels c text)).filter
    (fun s => decide (s ∉ foundMineLabels p text))).take 10

/-! ### Relevance scoring (`JobSearchEngine._calculate_relevance_score`) -/

/-- Python `int(...)` on a number: truncation toward zero. -/
def pyTrunc (q : ℚ) : ℤ := if 0 ≤ q then ⌊q⌋ else -⌊-q⌋

/-- The built-in fallback weight map. -/
def defaultWeights : List (String × ℚ) :=
  [("programming_languages", 20), ("testing_skills", 20), ("embedded_firmware", 15),
   ("ai_ml_skills", 20), ("known_companies", 10), ("seniority_level", 15)]

/-- Lookup `weights.get(key, dflt)`. -/
def lookupW (ws : List (String × ℚ)) (key : String) (dflt : ℚ) : ℚ :=
  match ws.find? (fun q => q.1 == key) with
  | some q => q.2
  | none => dflt

/-- The fixed `(weight_key, profile_key)` category list. -/
def categories : List (String × String) :=
  [("programming_languages", "programming"), ("testing_skills", "testing"),
   ("embedded_firmware", "embedded"), ("ai_ml_skills", "ai_ml")]

/-- Counts `sum(1 for s in skills if self._has_skill(text, s))`. -/
def catMatches (p : Profile) (text : String) (pk : String) : ℕ :=
  ((profileSkills p pk).filter (hasSkillStr text)).length

/-- The test `is_category_mentioned`: some corpus skill under `f"{pk}_skills"` or
`pk` is present in the text. -/
def catMentioned (c : Corpus) (text : String) (pk : String) : Bool :=
  (corpusGet c (pk ++ "_skills")).any (hasSkillStr text) ||
    (corpusGet c pk).any (hasSkillStr text)

/-- Known-company bonus test: some known company is a lowered substring of
the lowered company field. -/
def companyKnown (p : Profile) (company : String) : Bool :=
  p.known_companies.any (fun c => containsSub (pyLower company).data (pyLower c).data)

/-- Computes `len(matched_roles.split(","))` when non-empty, else 0. -/
def roleMatchCount (mr : String) : ℕ :=
  if mr = "" then 0 else (mr.data.filter (fun c => c = ',')).length + 1

/-- One loop iteration: accumulate `(score, max_score)` for a category. -/
def catStep (p : Profile) (c : Corpus) (text : String) (ws : List (String × ℚ))
    (acc : ℚ × ℚ) (cat : String × String) : ℚ × ℚ :=
  let weight := lookupW ws cat.1 20
  if catMentioned c text cat.2 then
    (acc.1 + min weight ((catMatches p text cat.2 : ℚ) * 4), acc.2 + weight)
  else
    (acc.1, acc.2 + weight * (1 / 4))

def calcRelevanceScore (p : Profile) (c : Corpus) (cfgW : List (String × ℚ))
    (company matchedRoles text : String) : ℤ :=
  let ws := if cfgW.isEmpty then defaultWeights else cfgW
  let acc := categories.foldl (catStep p c text ws) (0, 0)
  let cw := lookupW ws "known_companies" 10
  let sw := lookupW ws "seniority_level" 15
  let maxS := acc.2 + cw + sw
  let score1 := if companyKnown p company then acc.1 + cw else acc.1
  let score2 := score1 + min sw ((roleMatchCount matchedRoles : ℚ) * 5)
  if 0 < maxS then pyTrunc (score2 / maxS * 100) else 0

/-! ### Record enrichment (`JobSearchEngine._enrich_job_data`) -/

def remKws : List String :=
  ["remote", "home office", "homeoffice", "ortsunabhängig", "telearbeit", "mobil", "100%"]

def enrichJobData (p : Profile) (c : Corpus) (cfgW : List (String × ℚ)) (j : Job) : Job :=
  let text := scoringText j
  let roles := rolesString p text
  { j with
    detected_languages := if detectLanguage text = "de" then "German" else "English"
    matching_skills := String.intercalate ", " (matchingSkillsList p text)
    matched_roles := roles
    missing_skills := String.intercalate ", " (missingSkillsList p c text)
    salary_hint := if j.salary_hint = "" then extractSalary j.description else j.salary_hint
    work_location_type :=
      if remKws.any (fun kw => containsSubStr text kw) then "Remote"
      else if containsSubStr text "hybrid" then "Hybrid"
      else j.work_location_type
    relevance_score := calcRelevanceScore p c cfgW j.company roles text }

/-! ### Deduplication (`JobSearchEngine.remove_duplicates`) -/

/-- Python truthiness of an optional string field. -/
def truthyOpt : Option String → Bool
  | none => false
  | some s => s ≠ ""

/-- Identity key `str(j.get("job_id") or j.get("link"))`. -/
def keyOf (j : Job) : String :=
  match (if truthyOpt j.job_id then j.job_id else j.link) with
  | some s => s
  | none => "None"

def removeDuplicates (l : List Job) : List Job := dedupBy keyOf [] l

/-! ### Provider registry (`provider_registry.py`) -/

/-- The `(key, domain_pattern)` pairs of `ProviderRegistry._REGISTRY`, in its
fixed insertion order. -/
def registryEntries : List (String × String) :=
  [("linkedin", "linkedin.com"), ("hays", "hays.de"), ("solcom", "solcom.de"),
   ("freelancermap", "freelancermap.de"), ("xing", "xing.com"), ("gulp", "gulp.de"),
   ("freelance_de", "freelance.de"), ("ferchau", "ferchau.com")]

/-- Embedding of `ProviderRegistry.get_provider_key_from_url`: first registry entry whose
domain pattern is a substring of the lowered URL. -/
def get_provider_key_from_url (url : String) : Option String :=
  (registryEntries.find? (fun e => containsSubStr (pyLower url) e.2)).map (·.1)

/-! ### Manual mode (`JobSearchEngine.run_manual_mode`)

A CSV row contributes its `link` cell as `Option String`; the timestamp
`str(time.time())`, the `scraped_at` ISO timestamp and the CSV file name are
wall-clock/environment inputs and are taken as parameters. -/

def manualStub (ts scrapedAt csvName link : String) : Job :=
  { link := some link
    provider := (get_provider_key_from_url link).getD "linkedin"
    job_id := some ts
    title := "Pending Extraction..."
    company := "Pending Extraction..."
    location := "Remote"
    description := ""
    scraped_at := scrapedAt
    posted_at_relative := "N/A"
    work_location_type := "Remote"
    employment_type := "Freelance"
    search_criteria := "Manual | " ++ csvName
    relevance_score := 0 }

/-- The ingestion loop: rows without a truthy `link` are skipped
(`if not link: continue`), the rest become stub records in row order. -/
def run_manual_mode (ts scrapedAt csvName : String) (rows : List (Option String)) : List Job :=
  rows.foldr
    (fun link? acc =>
      match link? with
      | none => acc
      | some l => if l = "" then acc else manualStub ts scrapedAt csvName l :: acc)
    []

/-! ### Search-phase retry loop (`JobSearchEngine._run_provider_search`)

One `(query, location)` pair runs the `while not success and attempts <
max_attempts` loop.  A provider call either raises or returns a list of
records; the call outcomes are an oracle indexed by the attempt counter
(each loop iteration runs with a distinct `attempts` value).  `calls`
counts provider invocations, `sleeps` counts the `time.sleep(delay * 2)`
back-offs taken before retries (`if attempts > 0`). -/

def MAX_RETRIES_PER_QUERY : ℕ := 2

inductive Outcome where
  | raises
  | results (jobs : List Job)

structure QLResult where
  jobs : List Job
  calls : ℕ
  sleeps : ℕ
deriving DecidableEq

def runAttempts (supports : Bool) (oc : ℕ → Outcome) : ℕ → ℕ → QLResult
  | _, 0 => ⟨[], 0, 0⟩
  | attempts, r + 1 =>
    let sl : ℕ := if 0 < attempts then 1 else 0
    match oc attempts with
    | .results js =>
      if ¬js.isEmpty then ⟨js, 1, sl⟩
      else if ¬supports then
        let res := runAttempts supports oc (attempts + 1) r
        ⟨res.jobs, 1 + res.calls, sl + res.sleeps⟩
      else ⟨[], 1, sl⟩
    | .raises =>
      let res := runAttempts supports oc (attempts + 1) r
      ⟨res.jobs, 1 + res.calls, sl + res.sleeps⟩

/-- Sets `max_attempts = 1 if supports_location else self.MAX_RETRIES_PER_QUERY`. -/
def runQueryLoc (supports : Bool) (oc : ℕ → Outcome) : QLResult :=
  runAttempts supports oc 0 (if supports then 1 else MAX_RETRIES_PER_QUERY)

/-- Records collected by one provider over its queries × locations
(a location-insensitive provider iterates the single pseudo-location
`"All Locations"`). -/
def providerCollected (supports : Bool) (queries locs : List String)
    (oc : String → String → ℕ → Outcome) : List Job :=
  queries.flatMap fun q =>
    (if supports then locs else ["All Locations"]).flatMap fun loc =>
      (runQueryLoc supports (oc q loc)).jobs

/-! ### Pipeline tail (`finalize_pipeline` without I/O):
dedup, local enrichment, final sort. -/

/-- Stable descending insertion by `relevance_score` (Python
`list.sort(key=..., reverse=True)`). -/
def insertDesc (x : Job) : List Job → List Job
  | [] => [x]
  | y :: ys => if x.relevance_score ≤ y.relevance_score then y :: insertDesc x ys else x :: y :: ys

def sortByScoreDesc (l : List Job) : List Job := l.foldl (fun acc x => insertDesc x acc) []

def runPipeline (p : Profile) (c : Corpus) (cfgW : List (String × ℚ))
    (collected : List Job) : List Job :=
  sortByScoreDesc ((removeDuplicates collected).map (enrichJobData p c cfgW))

/-! ### The scoring formula as the specification words it

One record of the abstract per-category data the spec's formula consumes:
the configured weight, whether the corpus shows the category topically
relevant, and the number of candidate skills matched. -/

structure CatData where
  weight : ℚ
  relevant : Bool
  matched : ℕ
deriving DecidableEq

/-- Category contribution to the achievable maximum: full weight when
relevant, one quarter otherwise. -/
def specCatMax (c : CatData) : ℚ := if c.relevant then c.weight else c.weight * (1 / 4)

/-- Earned points per category: `min(weight, matchedCount × perMatchPoints)`
with 4 points per match, nothing for an irrelevant category. -/
def specCatEarned (c : CatData) : ℚ :=
  if c.relevant then min c.weight ((c.matched : ℚ) * 4) else 0

def specAchievableMax (cats : List CatData) (cw sw : ℚ) : ℚ :=
  (cats.map specCatMax).sum + cw + sw

def specEarned (cats : List CatData) (cw sw : ℚ) (companyB : Bool) (roleCount : ℕ) : ℚ :=
  (cats.map specCatEarned).sum + (if companyB then cw else 0) + min sw ((roleCount : ℚ) * 5)

/-- Modelled from the spec: the final-score formula exactly as claim C1
states it, `round(100 × earned / achievableMax)`, or 0 when the achievable
maximum is 0. -/
def specScoreRound (cats : List CatData) (cw sw : ℚ) (companyB : Bool) (roleCount : ℕ) : ℤ :=
  if specAchievableMax cats cw sw = 0 then 0
  else round (100 * specEarned cats cw sw companyB roleCount / specAchievableMax cats cw sw)

/-- The same formula with Python's `int(...)` truncation toward zero in
place of `round`, guarded on a positive achievable maximum. -/
def specScoreTrunc (cats : List CatData) (cw sw : ℚ) (companyB : Bool) (roleCount : ℕ) : ℤ :=
  if 0 < specAchievableMax cats cw sw then
    pyTrunc (100 * specEarned cats cw sw companyB roleCount / specAchievableMax cats cw sw)
  else 0

/-- The abstract per-category data realized by the code's quantities. -/
def codeCatData (p : Profile) (c : Corpus) (text : String) (ws : List (String × ℚ)) :
    List CatData :=
  categories.map fun cat =>
    ⟨lookupW ws cat.1 20, catMentioned c text cat.2, catMatches p text cat.2⟩

/-! ### Scoring lemmas -/

lemma catFold_spec (p : Profile) (c : Corpus) (text : String) (ws : List (String × ℚ)) :
    ∀ (cats : List (String × String)) (acc : ℚ × ℚ),
      cats.foldl (catStep p c text ws) acc =
        (acc.1 + ((cats.map fun cat =>
            specCatEarned ⟨lookupW ws cat.1 20, catMentioned c text cat.2,
              catMatches p text cat.2⟩).sum),
         acc.2 + ((cats.map fun cat =>
            specCatMax ⟨lookupW ws cat.1 20, catMentioned c text cat.2,
              catMatches p text cat.2⟩).sum)) := by
  intro cats
  induction cats with
  | nil => intro acc; simp
  | cons hd tl ih =>
    intro acc
    rw [List.foldl_cons, ih]
    simp only [catStep, specCatEarned, specCatMax, List.map_cons, List.sum_cons]
    split_ifs <;> (rw [Prod.mk.injEq]; constructor <;> ring)

/-- Refinement: the code's relevance score equals the spec's formula with
truncation toward zero, over the code's per-category data, for every
profile, corpus, weight configuration and text. -/
lemma calc_eq_specTrunc (p : Profile) (c : Corpus) (cfgW : List (String × ℚ))
    (company mr text : String) :
    calcRelevanceScore p c cfgW company mr text =
      (let ws := if cfgW.isEmpty then defaultWeights else cfgW
       specScoreTrunc (codeCatData p c text ws) (lookupW ws "known_companies" 10)
         (lookupW ws "seniority_level" 15) (companyKnown p company) (roleMatchCount mr)) := by
  simp only [calcRelevanceScore, specScoreTrunc, specAchievableMax, specEarned, codeCatData,
    List.map_map, Function.comp_def, catFold_spec p c text _ categories (0, 0), zero_add]
  split_ifs with h1 h2 h2 <;> first
    | rfl
    | (exact absurd (by linarith) h2)
    | (exact absurd (by linarith) h1)
    | (congr 1; ring)

lemma pyTrunc_eq_floor {q : ℚ} (h : 0 ≤ q) : pyTrunc q = ⌊q⌋ := if_pos h

lemma pyTrunc_intCast (n : ℤ) : pyTrunc ((n : ℚ)) = n := by
  unfold pyTrunc
  split_ifs with h
  · exact_mod_cast Int.floor_intCast n
  · rw [show (-(n : ℚ)) = ((-n : ℤ) : ℚ) by push_cast; ring]
    rw [Int.floor_intCast]
    ring

lemma lookupW_nonneg {ws : List (String × ℚ)} (h : ∀ q ∈ ws, 0 ≤ q.2)
    {key : String} {d : ℚ} (hd : 0 ≤ d) : 0 ≤ lookupW ws key d := by
  unfold lookupW
  cases hfind : ws.find? (fun q => q.1 == key) with
  | none => exact hd
  | some q => exact h q (List.mem_of_find?_eq_some hfind)

lemma effWeights_nonneg (cfgW : List (String × ℚ)) (h : ∀ q ∈ cfgW, 0 ≤ q.2) :
    ∀ q ∈ (if cfgW.isEmpty then defaultWeights else cfgW), 0 ≤ q.2 := by
  split
  · intro q hq
    fin_cases hq <;> norm_num
  · exact h

/-- Invariant of the category loop: the earned score stays nonnegative and
below the accumulated maximum, provided the weights are nonnegative. -/
lemma catFold_bounds (p : Profile) (c : Corpus) (text : String) (ws : List (String × ℚ))
    (hws : ∀ q ∈ ws, 0 ≤ q.2) :
    ∀ (cats : List (String × String)) (acc : ℚ × ℚ), 0 ≤ acc.1 → acc.1 ≤ acc.2 →
      0 ≤ (cats.foldl (catStep p c text ws) acc).1 ∧
        (cats.foldl (catStep p c text ws) acc).1 ≤ (cats.foldl (catStep p c text ws) acc).2 := by
  intro cats
  induction cats with
  | nil => exact fun acc h1 h2 => ⟨h1, h2⟩
  | cons hd tl ih =>
    intro acc h1 h2
    rw [List.foldl_cons]
    have hw : 0 ≤ lookupW ws hd.1 20 := lookupW_nonneg hws (by norm_num)
    unfold catStep
    split_ifs
    · exact ih _ (add_nonneg h1 (le_min hw (by positivity)))
        (add_le_add h2 (min_le_left _ _))
    · exact ih _ h1 (h2.trans (le_add_of_nonneg_right (by positivity)))

/-- Bounds for the spec-side truncated formula under nonnegative weights. -/
lemma specScoreTrunc_bounds (cats : List CatData) (cw sw : ℚ) (companyB : Bool)
    (roleCount : ℕ) (hcats : ∀ cd ∈ cats, 0 ≤ cd.weight) (hcw : 0 ≤ cw) (hsw : 0 ≤ sw) :
    0 ≤ specScoreTrunc cats cw sw companyB roleCount ∧
      specScoreTrunc cats cw sw companyB roleCount ≤ 100 := by
  have hE0 : 0 ≤ (cats.map specCatEarned).sum := by
    apply List.sum_nonneg
    intro x hx
    obtain ⟨cd, hcd, rfl⟩ := List.mem_map.mp hx
    unfold specCatEarned
    split_ifs
    · exact le_min (hcats cd hcd) (by positivity)
    · exact le_refl 0
  have hEM : (cats.map specCatEarned).sum ≤ (cats.map specCatMax).sum := by
    apply List.sum_le_sum
    intro cd hcd
    unfold specCatEarned specCatMax
    split_ifs
    · exact min_le_left _ _
    · exact mul_nonneg (hcats cd hcd) (by norm_num)
  have hb0 : 0 ≤ (if companyB then cw else 0) := by split_ifs <;> simp [hcw]
  have hb1 : (if companyB then cw else 0) ≤ cw := by split_ifs <;> simp [hcw]
  have hr0 : 0 ≤ min sw ((roleCount : ℚ) * 5) := le_min hsw (by positivity)
  have hr1 : min sw ((roleCount : ℚ) * 5) ≤ sw := min_le_left _ _
  have hearn0 : 0 ≤ specEarned cats cw sw companyB roleCount :=
    add_nonneg (add_nonneg hE0 hb0) hr0
  have hearnM : specEarned cats cw sw companyB roleCount ≤ specAchievableMax cats cw sw :=
    add_le_add (add_le_add hEM hb1) hr1
  unfold specScoreTrunc
  split_ifs with hpos
  · have hq0 : 0 ≤ 100 * specEarned cats cw sw companyB roleCount /
        specAchievableMax cats cw sw :=
      div_nonneg (mul_nonneg (by norm_num) hearn0) (le_of_lt hpos)
    have hq100 : 100 * specEarned cats cw sw companyB roleCount /
        specAchievableMax cats cw sw ≤ 100 := by
      rw [div_le_iff₀ hpos]
      nlinarith
    rw [pyTrunc_eq_floor hq0]
    refine ⟨Int.le_floor.mpr (by exact_mod_cast hq0), ?_⟩
    calc ⌊100 * specEarned cats cw sw companyB roleCount / specAchievableMax cats cw sw⌋
        ≤ ⌊(100 : ℚ)⌋ := Int.floor_le_floor hq100
      _ = 100 := by norm_num
  · norm_num

/-- With nonnegative configured weights the computed relevance score lies in
`[0, 100]`. -/
lemma calc_score_bounds (p : Profile) (c : Corpus) (cfgW : List (String × ℚ))
    (company mr text : String) (h : ∀ q ∈ cfgW, 0 ≤ q.2) :
    0 ≤ calcRelevanceScore p c cfgW company mr text ∧
      calcRelevanceScore p c cfgW company mr text ≤ 100 := by
  rw [calc_eq_specTrunc]
  have hws : ∀ q ∈ (if cfgW.isEmpty then defaultWeights else cfgW), 0 ≤ q.2 :=
    effWeights_nonneg cfgW h
  apply specScoreTrunc_bounds
  · intro cd hcd
    obtain ⟨cat, _, rfl⟩ := List.mem_map.mp hcd
    exact lookupW_nonneg hws (by norm_num)
  · exact lookupW_nonneg hws (by norm_num)
  · exact lookupW_nonneg hws (by norm_num)

/-- With an empty profile and empty corpus (and nonnegative weights) the
enriched relevance score is 0. -/
lemma calc_empty_zero (cfgW : List (String × ℚ)) (j : Job) (h : ∀ q ∈ cfgW, 0 ≤ q.2) :
    (enrichJobData emptyProfile [] cfgW j).relevance_score = 0 := by
  have hsw : 0 ≤ lookupW (if cfgW.isEmpty then defaultWeights else cfgW) "seniority_level" 15 :=
    lookupW_nonneg (effWeights_nonneg cfgW h) (by norm_num)
  show calcRelevanceScore emptyProfile [] cfgW j.company
      (rolesString emptyProfile (scoringText j)) (scoringText j) = 0
  rw [calc_eq_specTrunc]
  have hroles : rolesString emptyProfile (scoringText j) = "" := rfl
  rw [hroles]
  simp only [specScoreTrunc, specEarned, specAchievableMax, codeCatData, categories,
    specCatEarned, specCatMax, List.map_cons, List.map_nil, List.sum_cons, List.sum_nil,
    catMentioned, corpusGet, List.find?_nil, List.any_nil, Bool.or_self,
    catMatches, profileSkills, emptyProfile, List.filter_nil, List.length_nil,
    companyKnown, Bool.false_eq_true, if_false, add_zero, zero_add]
  have h0 : (↑(roleMatchCount "") : ℚ) * 5 = 0 := by norm_num [roleMatchCount]
  rw [h0, min_eq_right hsw, mul_zero, zero_div]
  split_ifs <;> first
    | rw [pyTrunc_eq_floor le_rfl, Int.floor_zero]
    | rfl

/-! ### Claims C1 and C2 -/

/-- C1 (amended): for every job record and configuration the relevance
score is computed category by category exactly as the claim states — full
weight into the achievable maximum when the corpus shows the category
present in the text, a quarter weight otherwise, earned points
`min(weight, matchedCount × 4)` per category, the known-company and
role-match bonus weights always added to the achievable maximum — but the
final score is the *truncation toward zero* of `100 × earned /
achievableMax` (Python `int(...)`) when the achievable maximum is
positive, and 0 otherwise, not `round(...)`. -/
theorem C1_relevance_score_trunc_formula :
    ∀ (p : Profile) (c : Corpus) (cfgW : List (String × ℚ)) (company mr text : String),
      calcRelevanceScore p c cfgW company mr text =
        (let ws := if cfgW.isEmpty then defaultWeights else cfgW
         specScoreTrunc (codeCatData p c text ws) (lookupW ws "known_companies" 10)
           (lookupW ws "seniority_level" 15) (companyKnown p company) (roleMatchCount mr)) :=
  fun p c cfgW company mr text => calc_eq_specTrunc p c cfgW company mr text

/-- C1 counterexample: with configured weights `{programming_languages: 0,
testing_skills: 0, embedded_firmware: 0, ai_ml_skills: 0, known_companies:
2, seniority_level: 1}`, an empty corpus, a profile whose known companies
are `["acme"]` and the job company `"ACME Corp"`, the code's earned points
are 2 of an achievable maximum 3, and Python computes
`int((2/3)*100) = 66`; the claim's `round(100 × 2 / 3)` is 67. -/
theorem C1_round_counterexample :
    calcRelevanceScore { known_companies := ["acme"] } []
        [("programming_languages", 0), ("testing_skills", 0), ("embedded_firmware", 0),
         ("ai_ml_skills", 0), ("known_companies", 2), ("seniority_level", 1)]
        "ACME Corp" "" "x" = 66
    ∧ specScoreRound [⟨0, false, 0⟩, ⟨0, false, 0⟩, ⟨0, false, 0⟩, ⟨0, false, 0⟩] 2 1 true 0
        = 67 := by
  constructor
  · rw [calc_eq_specTrunc]
    simp only [List.isEmpty_cons, Bool.false_eq_true, if_false]
    rw [show codeCatData { known_companies := ["acme"] } [] "x"
        [("programming_languages", (0 : ℚ)), ("testing_skills", 0), ("embedded_firmware", 0),
         ("ai_ml_skills", 0), ("known_companies", 2), ("seniority_level", 1)] =
        [⟨0, false, 0⟩, ⟨0, false, 0⟩, ⟨0, false, 0⟩, ⟨0, false, 0⟩] from by decide]
    rw [show lookupW
        [("programming_languages", (0 : ℚ)), ("testing_skills", 0), ("embedded_firmware", 0),
         ("ai_ml_skills", 0), ("known_companies", 2), ("seniority_level", 1)]
        "known_companies" 10 = 2 from rfl]
    rw [show lookupW
        [("programming_languages", (0 : ℚ)), ("testing_skills", 0), ("embedded_firmware", 0),
         ("ai_ml_skills", 0), ("known_companies", 2), ("seniority_level", 1)]
        "seniority_level" 15 = 1 from rfl]
    rw [show companyKnown { known_companies := ["acme"] } "ACME Corp" = true from by decide]
    rw [show roleMatchCount "" = 0 from rfl]
    simp only [specScoreTrunc, specAchievableMax, specEarned, specCatMax, specCatEarned,
      List.map_cons, List.map_nil, List.sum_cons, List.sum_nil, Bool.false_eq_true, if_false,
      if_true, Nat.cast_zero, zero_mul, add_zero, zero_add, mul_zero]
    rw [min_eq_right (by norm_num : (0 : ℚ) ≤ 1)]
    norm_num
    rw [pyTrunc_eq_floor (by norm_num)]
    apply Int.floor_eq_iff.mpr
    constructor <;> norm_num
  · simp only [specScoreRound, specAchievableMax, specEarned, specCatMax, specCatEarned,
      List.map_cons, List.map_nil, List.sum_cons, List.sum_nil, Bool.false_eq_true, if_false,
      if_true, Nat.cast_zero, zero_mul, add_zero, zero_add, mul_zero]
    rw [min_eq_right (by norm_num : (0 : ℚ) ≤ 1)]
    norm_num
    rw [round_eq]
    apply Int.floor_eq_iff.mpr
    constructor <;> norm_num

/-- C2 (amended): for every job record, profile, corpus and weight
configuration whose configured weights are all nonnegative, the computed
`relevance_score` lies in [0, 100]; and with an empty profile and empty
corpus the score is 0. -/
theorem C2_score_bounds :
    ∀ (p : Profile) (c : Corpus) (cfgW : List (String × ℚ)) (j : Job),
      (∀ q ∈ cfgW, 0 ≤ q.2) →
      (0 ≤ (enrichJobData p c cfgW j).relevance_score ∧
        (enrichJobData p c cfgW j).relevance_score ≤ 100) ∧
      (p = emptyProfile → c = [] → (enrichJobData p c cfgW j).relevance_score = 0) := by
  intro p c cfgW j h
  refine ⟨?_, ?_⟩
  · have hproj : (enrichJobData p c cfgW j).relevance_score =
        calcRelevanceScore p c cfgW j.company (rolesString p (scoringText j)) (scoringText j) :=
      rfl
    rw [hproj]
    exact calc_score_bounds p c cfgW j.company _ _ h
  · rintro rfl rfl
    exact calc_empty_zero cfgW j h

/-- Witness for C2: concrete instantiation at the empty profile, empty
corpus, empty weight configuration and the default record. -/
theorem C2_score_bounds_witness :
    (0 ≤ (enrichJobData emptyProfile [] [] {}).relevance_score ∧
      (enrichJobData emptyProfile [] [] {}).relevance_score ≤ 100) ∧
      (enrichJobData emptyProfile [] [] {}).relevance_score = 0 := by
  have h := C2_score_bounds emptyProfile [] [] {} (by simp)
  exact ⟨h.1, h.2 rfl rfl⟩

/-- C2 counterexample: a negative configured `seniority_level` weight
drives the score to −150, outside [0, 100] (profile empty, corpus knows
`"java"`, text `"Java Developer"`: achievable maximum 5 − 3 = 2, earned
−3, `int((-3/2)*100) = -150`). -/
theorem C2_negative_weight_counterexample :
    (enrichJobData emptyProfile [("programming", [SkillEntry.plain "java"])]
        [("programming_languages", 5), ("testing_skills", 0), ("embedded_firmware", 0),
         ("ai_ml_skills", 0), ("known_companies", 0), ("seniority_level", -3)]
        { title := "Java Developer" }).relevance_score = -150 ∧ (-150 : ℤ) < 0 := by
  refine ⟨?_, by norm_num⟩
  show calcRelevanceScore emptyProfile [("programming", [SkillEntry.plain "java"])]
      [("programming_languages", 5), ("testing_skills", 0), ("embedded_firmware", 0),
       ("ai_ml_skills", 0), ("known_companies", 0), ("seniority_level", -3)]
      (Job.company { title := "Java Developer" })
      (rolesString emptyProfile (scoringText { title := "Java Developer" }))
      (scoringText { title := "Java Developer" }) = -150
  rw [calc_eq_specTrunc]
  simp only [List.isEmpty_cons, Bool.false_eq_true, if_false]
  rw [show codeCatData emptyProfile [("programming", [SkillEntry.plain "java"])]
      (scoringText { title := "Java Developer" })
      [("programming_languages", (5 : ℚ)), ("testing_skills", 0), ("embedded_firmware", 0),
       ("ai_ml_skills", 0), ("known_companies", 0), ("seniority_level", -3)] =
      [⟨5, true, 0⟩, ⟨0, false, 0⟩, ⟨0, false, 0⟩, ⟨0, false, 0⟩] from by decide]
  rw [show lookupW
      [("programming_languages", (5 : ℚ)), ("testing_skills", 0), ("embedded_firmware", 0),
       ("ai_ml_skills", 0), ("known_companies", 0), ("seniority_level", -3)]
      "known_companies" 10 = 0 from rfl]
  rw [show lookupW
      [("programming_languages", (5 : ℚ)), ("testing_skills", 0), ("embedded_firmware", 0),
       ("ai_ml_skills", 0), ("known_companies", 0), ("seniority_level", -3)]
      "seniority_level" 15 = -3 from rfl]
  rw [show companyKnown emptyProfile (Job.company { title := "Java Developer" }) = false
      from rfl]
  rw [show roleMatchCount (rolesString emptyProfile (scoringText { title := "Java Developer" }))
      = 0 from rfl]
  simp only [specScoreTrunc, specAchievableMax, specEarned, specCatMax, specCatEarned,
    List.map_cons, List.map_nil, List.sum_cons, List.sum_nil, Bool.false_eq_true, if_false,
    if_true, Nat.cast_zero, zero_mul, add_zero, zero_add, mul_zero]
  rw [min_eq_right (by norm_num : (0 : ℚ) ≤ 5), min_eq_left (by norm_num : (-3 : ℚ) ≤ 0)]
  norm_num
  rw [show (-150 : ℚ) = ((-150 : ℤ) : ℚ) by norm_num, pyTrunc_intCast]

/-! ### Claim C3: deterministic, idempotent scoring -/

/-- Enrichment never touches the four text fields it scores. -/
lemma enrich_preserves_text (p : Profile) (c : Corpus) (cfgW : List (String × ℚ)) (j : Job) :
    (enrichJobData p c cfgW j).title = j.title ∧
      (enrichJobData p c cfgW j).company = j.company ∧
      (enrichJobData p c cfgW j).description = j.description ∧
      (enrichJobData p c cfgW j).location = j.location :=
  ⟨rfl, rfl, rfl, rfl⟩

/-- The three derived fields of the claim are functions of the four text
fields alone. -/
lemma enrich_text_determined (p : Profile) (c : Corpus) (cfgW : List (String × ℚ))
    (j j' : Job) (h1 : j'.title = j.title) (h2 : j'.company = j.company)
    (h3 : j'.description = j.description) (h4 : j'.location = j.location) :
    (enrichJobData p c cfgW j').relevance_score = (enrichJobData p c cfgW j).relevance_score ∧
      (enrichJobData p c cfgW j').matching_skills = (enrichJobData p c cfgW j).matching_skills ∧
      (enrichJobData p c cfgW j').missing_skills = (enrichJobData p c cfgW j).missing_skills := by
  have htext : scoringText j' = scoringText j := by
    unfold scoringText
    rw [h1, h2, h3, h4]
  refine ⟨?_, ?_, ?_⟩
  · show calcRelevanceScore p c cfgW j'.company (rolesString p (scoringText j'))
        (scoringText j') = calcRelevanceScore p c cfgW j.company (rolesString p (scoringText j))
        (scoringText j)
    rw [htext, h2]
  · show String.intercalate ", " (matchingSkillsList p (scoringText j')) =
        String.intercalate ", " (matchingSkillsList p (scoringText j))
    rw [htext]
  · show String.intercalate ", " (missingSkillsList p c (scoringText j')) =
        String.intercalate ", " (missingSkillsList p c (scoringText j))
    rw [htext]

/-- C3: scoring is a deterministic function of (profile, corpus, weights,
title, company, description, location).  Running the Scoring Engine a
second time on an enriched record leaves `relevance_score`,
`matching_skills` and `missing_skills` unchanged, and any two records with
identical text fields — regardless of which pipeline (bulk or manual
single-link, both of which call the same enrichment) produced them —
receive identical values for those three fields. -/
theorem C3_scoring_deterministic :
    ∀ (p : Profile) (c : Corpus) (cfgW : List (String × ℚ)) (j j' : Job),
      (j'.title = j.title → j'.company = j.company → j'.description = j.description →
        j'.location = j.location →
        (enrichJobData p c cfgW j').relevance_score =
            (enrichJobData p c cfgW j).relevance_score ∧
          (enrichJobData p c cfgW j').matching_skills =
            (enrichJobData p c cfgW j).matching_skills ∧
          (enrichJobData p c cfgW j').missing_skills =
            (enrichJobData p c cfgW j).missing_skills) ∧
      ((enrichJobData p c cfgW (enrichJobData p c cfgW j)).relevance_score =
          (enrichJobData p c cfgW j).relevance_score ∧
        (enrichJobData p c cfgW (enrichJobData p c cfgW j)).matching_skills =
          (enrichJobData p c cfgW j).matching_skills ∧
        (enrichJobData p c cfgW (enrichJobData p c cfgW j)).missing_skills =
          (enrichJobData p c cfgW j).missing_skills) := by
  intro p c cfgW j j'
  constructor
  · exact fun h1 h2 h3 h4 => enrich_text_determined p c cfgW j j' h1 h2 h3 h4
  · obtain ⟨e1, e2, e3, e4⟩ := enrich_preserves_text p c cfgW j
    exact enrich_text_determined p c cfgW j (enrichJobData p c cfgW j) e1 e2 e3 e4

/-- Witness for C3: two concrete records differing only in non-text fields
(provider, salary hint) receive identical scoring fields, and rescoring a
concrete enriched record is a no-op on the three fields. -/
theorem C3_scoring_deterministic_witness :
    ((enrichJobData emptyProfile [] [] { title := "Dev", provider := "xing" }).relevance_score =
        (enrichJobData emptyProfile [] [] { title := "Dev" }).relevance_score ∧
      (enrichJobData emptyProfile [] [] { title := "Dev", provider := "xing" }).matching_skills =
        (enrichJobData emptyProfile [] [] { title := "Dev" }).matching_skills ∧
      (enrichJobData emptyProfile [] [] { title := "Dev", provider := "xing" }).missing_skills =
        (enrichJobData emptyProfile [] [] { title := "Dev" }).missing_skills) ∧
    (enrichJobData emptyProfile [] []
        (enrichJobData emptyProfile [] [] { title := "Dev" })).relevance_score =
      (enrichJobData emptyProfile [] [] { title := "Dev" }).relevance_score := by
  have h := C3_scoring_deterministic emptyProfile [] [] { title := "Dev" }
    { title := "Dev", provider := "xing" }
  exact ⟨h.1 rfl rfl rfl rfl, h.2.1⟩

/-! ### Claims C4 and C5: deduplication -/

lemma dedupBy_sublist {α : Type} (key : α → String) :
    ∀ (seen : List String) (l : List α), (dedupBy key seen l).Sublist l := by
  intro seen l
  induction l generalizing seen with
  | nil => exact List.Sublist.refl []
  | cons x rest ih =>
    unfold dedupBy
    split_ifs
    · exact (ih seen).cons x
    · exact (ih (key x :: seen)).cons₂ x

lemma dedupBy_key_not_seen {α : Type} (key : α → String) :
    ∀ (seen : List String) (l : List α) (x : α), x ∈ dedupBy key seen l → key x ∉ seen := by
  intro seen l
  induction l generalizing seen with
  | nil => intro x hx; cases hx
  | cons y rest ih =>
    intro x hx
    unfold dedupBy at hx
    split_ifs at hx with hy
    · exact ih seen x hx
    · rcases List.mem_cons.mp hx with rfl | hx'
      · exact hy
      · intro hk
        exact ih (key y :: seen) x hx' (List.mem_cons_of_mem _ hk)

lemma dedupBy_keys_nodup {α : Type} (key : α → String) :
    ∀ (seen : List String) (l : List α), ((dedupBy key seen l).map key).Nodup := by
  intro seen l
  induction l generalizing seen with
  | nil => exact List.nodup_nil
  | cons y rest ih =>
    unfold dedupBy
    split_ifs with hy
    · exact ih seen
    · rw [List.map_cons, List.nodup_cons]
      refine ⟨?_, ih (key y :: seen)⟩
      intro hmem
      obtain ⟨x, hx, hkey⟩ := List.mem_map.mp hmem
      exact dedupBy_key_not_seen key _ _ x hx (hkey ▸ List.mem_cons_self _ _)

/-- The survivor carrying a given identity key is the first record of the
input carrying it. -/
lemma dedupBy_find? {α : Type} (key : α → String) :
    ∀ (seen : List String) (l : List α) (k : String), k ∉ seen →
      (dedupBy key seen l).find? (fun r => key r == k) = l.find? (fun r => key r == k) := by
  intro seen l
  induction l generalizing seen with
  | nil => intro k _; rfl
  | cons y rest ih =>
    intro k hk
    unfold dedupBy
    split_ifs with hy
    · have hyb : (key y == k) = false :=
        beq_eq_false_iff_ne.mpr (fun he => hk (he ▸ hy))
      simp only [List.find?_cons, hyb]
      exact ih seen k hk
    · cases hyb : (key y == k) with
      | true => simp only [List.find?_cons, hyb]
      | false =>
        simp only [List.find?_cons, hyb]
        apply ih
        intro hmem
        rcases List.mem_cons.mp hmem with rfl | hmem'
        · simp at hyb
        · exact hk hmem'

/-- C4: after deduplication each identity key (`job_id` if truthy, else
`link`) occurs at most once; the surviving records form a subsequence of
the input (insertion order preserved, survivors taken verbatim from the
input); and for every input record the survivor carrying its identity key
is exactly the first input record carrying that key. -/
theorem C4_dedup_first_wins :
    ∀ l : List Job,
      ((removeDuplicates l).map keyOf).Nodup ∧
      (removeDuplicates l).Sublist l ∧
      ∀ j ∈ l, (removeDuplicates l).find? (fun r => keyOf r == keyOf j) =
        l.find? (fun r => keyOf r == keyOf j) := by
  intro l
  exact ⟨dedupBy_keys_nodup keyOf [] l, dedupBy_sublist keyOf [] l,
    fun j _ => dedupBy_find? keyOf [] l (keyOf j) (List.not_mem_nil _)⟩

/-- Witness for C4: two records sharing `job_id` "1"; the survivor list
keeps exactly the first. -/
theorem C4_dedup_first_wins_witness :
    ((removeDuplicates [{ job_id := some "1", title := "a" },
        { job_id := some "1", title := "b" }]).map keyOf).Nodup ∧
    (removeDuplicates [{ job_id := some "1", title := "a" },
        { job_id := some "1", title := "b" }]).find?
        (fun r => keyOf r == keyOf { job_id := some "1", title := "b" }) =
      [({ job_id := some "1", title := "a" } : Job),
        { job_id := some "1", title := "b" }].find?
        (fun r => keyOf r == keyOf { job_id := some "1", title := "b" }) := by
  have h := C4_dedup_first_wins
    [{ job_id := some "1", title := "a" }, { job_id := some "1", title := "b" }]
  exact ⟨h.1, h.2.2 { job_id := some "1", title := "b" } (by simp)⟩

/-- C5 counterexample: two records with the identical link `"L"` but
different truthy `job_id` values are *both* kept — `job_id or link` only
falls back to the link when `job_id` is falsy, so an identical link does
not collapse them. -/
theorem C5_same_link_not_collapsed :
    removeDuplicates [{ job_id := some "1", link := some "L" },
        { job_id := some "2", link := some "L" }] =
      [{ job_id := some "1", link := some "L" }, { job_id := some "2", link := some "L" }] := by
  decide

/-- C5 (amended): two records with identical link are collapsed by the
deduplication phase only when their `job_id` values are absent or empty
(Python-falsy), so that the link is the identity key for both; the first
record survives. -/
theorem C5_same_link_falsy_id_collapsed :
    ∀ j1 j2 : Job, truthyOpt j1.job_id = false → truthyOpt j2.job_id = false →
      j1.link = j2.link → removeDuplicates [j1, j2] = [j1] := by
  intro j1 j2 h1 h2 hlink
  have hkey : keyOf j2 = keyOf j1 := by
    unfold keyOf
    rw [h1, h2, hlink]
    simp
  show dedupBy keyOf [] [j1, j2] = [j1]
  unfold dedupBy
  rw [if_neg (List.not_mem_nil _)]
  unfold dedupBy
  rw [if_pos (hkey ▸ List.mem_cons_self _ _)]
  rfl

/-- Witness for C5 (amended): concrete records with empty/absent job ids
and the same link collapse to the first. -/
theorem C5_same_link_falsy_id_collapsed_witness :
    removeDuplicates [{ job_id := some "", link := some "L", title := "x" },
        { job_id := none, link := some "L", title := "y" }] =
      [{ job_id := some "", link := some "L", title := "x" }] :=
  C5_same_link_falsy_id_collapsed
    { job_id := some "", link := some "L", title := "x" }
    { job_id := none, link := some "L", title := "y" } rfl rfl rfl

/-! ### Claim C6: token-boundary skill matching -/

lemma isPrefixOf_iff_exists : ∀ (c t : List Char), c.isPrefixOf t = true ↔ ∃ post, t = c ++ post := by
  intro c
  induction c with
  | nil => intro t; simp [List.isPrefixOf]
  | cons a as ih =>
    intro t
    cases t with
    | nil => simp [List.isPrefixOf]
    | cons b bs =>
      simp only [List.isPrefixOf, Bool.and_eq_true, beq_iff_eq, ih, List.cons_append]
      constructor
      · rintro ⟨rfl, post, rfl⟩
        exact ⟨post, rfl⟩
      · rintro ⟨post, heq⟩
        injection heq with h1 h2
        exact ⟨h1.symm, post, h2⟩

/-- Python substring containment is exactly an occurrence decomposition. -/
lemma containsSub_iff : ∀ (t c : List Char),
    containsSub t c = true ↔ ∃ pre post, t = pre ++ c ++ post := by
  intro t
  induction t with
  | nil =>
    intro c
    simp only [containsSub, isPrefixOf_iff_exists]
    constructor
    · rintro ⟨post, h⟩
      exact ⟨[], post, by simpa using h⟩
    · rintro ⟨pre, post, h⟩
      obtain ⟨hpc, hpost⟩ := List.append_eq_nil.mp h.symm
      obtain ⟨hpre, hc⟩ := List.append_eq_nil.mp hpc
      exact ⟨[], by simp [hc]⟩
  | cons x rest ih =>
    intro c
    simp only [containsSub, Bool.or_eq_true, isPrefixOf_iff_exists, ih]
    constructor
    · rintro (⟨post, h⟩ | ⟨pre, post, h⟩)
      · exact ⟨[], post, by simpa using h⟩
      · exact ⟨x :: pre, post, by simp [h]⟩
    · rintro ⟨pre, post, h⟩
      cases pre with
      | nil => exact Or.inl ⟨post, by simpa using h⟩
      | cons x' pre' =>
        right
        rw [List.cons_append] at h
        injection h with h1 h2
        exact ⟨pre', post, h2⟩

/-- The token scan is exactly an occurrence decomposition whose left
neighbour (the last character before the occurrence, or the carried
previous character) and right neighbour satisfy the boundary tests. -/
lemma tokenFrom_iff : ∀ (t : List Char) (prev : Option Char) (c : List Char),
    tokenFrom prev t c = true ↔
      ∃ pre post, t = pre ++ c ++ post ∧ boundaryB (lastOpt prev pre) = true ∧
        tailBoundary post = true := by
  intro t
  induction t with
  | nil =>
    intro prev c
    cases c with
    | nil =>
      simp only [tokenFrom, List.isPrefixOf, List.drop_nil, tailBoundary, Bool.and_true]
      constructor
      · intro h
        exact ⟨[], [], rfl, h, rfl⟩
      · rintro ⟨pre, post, heq, hb, _⟩
        obtain ⟨hpc, hpost⟩ := List.append_eq_nil.mp heq.symm
        obtain ⟨hpre, _⟩ := List.append_eq_nil.mp hpc
        subst hpre
        exact hb
    | cons a as =>
      simp only [tokenFrom, List.isPrefixOf, Bool.and_false, Bool.false_and, Bool.and_true]
      constructor
      · intro h
        simp at h
      · rintro ⟨pre, post, heq, _, _⟩
        obtain ⟨hpc, _⟩ := List.append_eq_nil.mp heq.symm
        obtain ⟨_, hc⟩ := List.append_eq_nil.mp hpc
        cases hc
  | cons x t' ih =>
    intro prev c
    show ((boundaryB prev && c.isPrefixOf (x :: t') &&
        tailBoundary ((x :: t').drop c.length)) || tokenFrom (some x) t' c) = true ↔ _
    rw [Bool.or_eq_true, ih (some x) c]
    constructor
    · rintro (hA | ⟨pre, post, heq, hb, ht⟩)
      · simp only [Bool.and_eq_true] at hA
        obtain ⟨⟨hbp, hpre⟩, htb⟩ := hA
        obtain ⟨post, hpost⟩ := (isPrefixOf_iff_exists c (x :: t')).mp hpre
        refine ⟨[], post, by simpa using hpost, hbp, ?_⟩
        rw [hpost, List.drop_left] at htb
        exact htb
      · exact ⟨x :: pre, post, by simp [heq], hb, ht⟩
    · rintro ⟨pre, post, heq, hb, ht⟩
      cases pre with
      | nil =>
        left
        simp only [List.nil_append] at heq
        simp only [Bool.and_eq_true]
        refine ⟨⟨hb, (isPrefixOf_iff_exists c (x :: t')).mpr ⟨post, heq⟩⟩, ?_⟩
        rw [heq, List.drop_left]
        exact ht
      | cons x' pre' =>
        right
        rw [List.cons_append, List.cons_append] at heq
        injection heq with h1 h2
        subst h1
        exact ⟨pre', post, h2, hb, ht⟩

/-- C6: a skill matches only at occurrences bounded on both sides by
absent or non-alphanumeric characters — so "Go" does not match inside
"Golang" — except for the fixed exception list `c++`, `c#`, `.net`, which
matches by plain substring containment, so "C++" matches adjacent to
punctuation. -/
theorem C6_token_boundary_matching :
    (∀ text skill : String,
      ((pyLower skill).data = "c++".data ∨ (pyLower skill).data = "c#".data ∨
          (pyLower skill).data = ".net".data →
        (hasSkillStr text (.plain skill) = true ↔
          ∃ pre post, (pyLower text).data = pre ++ (pyLower skill).data ++ post)) ∧
      (¬((pyLower skill).data = "c++".data ∨ (pyLower skill).data = "c#".data ∨
          (pyLower skill).data = ".net".data) →
        (hasSkillStr text (.plain skill) = true ↔
          ∃ pre post, (pyLower text).data = pre ++ (pyLower skill).data ++ post ∧
            boundaryB (lastOpt none pre) = true ∧ tailBoundary post = true))) ∧
    hasSkillStr "Golang developer" (.plain "Go") = false ∧
    hasSkillStr "We use C++, daily" (.plain "C++") = true := by
  refine ⟨?_, by decide, by decide⟩
  intro text skill
  constructor
  · intro hexc
    show hasSkillCand (pyLower text).data (pyLower skill).data = true ↔ _
    rw [hasSkillCand, if_pos hexc]
    exact containsSub_iff _ _
  · intro hexc
    show hasSkillCand (pyLower text).data (pyLower skill).data = true ↔ _
    rw [hasSkillCand, if_neg hexc]
    exact tokenFrom_iff _ _ _

/-- Witness for C6: the exception-list branch applied at a concrete skill
and text, instantiating the occurrence decomposition explicitly. -/
theorem C6_token_boundary_matching_witness :
    hasSkillStr "uses .NET here" (SkillEntry.plain ".NET") = true :=
  ((C6_token_boundary_matching.1 "uses .NET here" ".NET").1
      (Or.inr (Or.inr (by decide)))).mpr
    ⟨"uses ".data, " here".data, by decide⟩

/-! ### Claim C7: matched and missing skill lists -/

lemma insertSorted_perm (s : String) (l : List String) : (insertSorted s l).Perm (s :: l) := by
  induction l with
  | nil => exact List.Perm.refl _
  | cons x xs ih =>
    unfold insertSorted
    split_ifs
    · exact List.Perm.refl _
    · exact (ih.cons x).trans (List.Perm.swap s x xs)

lemma insertSorted_pairwise (s : String) (l : List String) (h : l.Pairwise (· ≤ ·)) :
    (insertSorted s l).Pairwise (· ≤ ·) := by
  induction l with
  | nil => simp [insertSorted]
  | cons x xs ih =>
    rw [List.pairwise_cons] at h
    obtain ⟨hx, hxs⟩ := h
    unfold insertSorted
    split_ifs with hle
    · rw [List.pairwise_cons]
      refine ⟨?_, List.pairwise_cons.mpr ⟨hx, hxs⟩⟩
      intro y hy
      rcases List.mem_cons.mp hy with rfl | hy'
      · exact hle
      · exact hle.trans (hx y hy')
    · rw [List.pairwise_cons]
      refine ⟨?_, ih hxs⟩
      intro y hy
      rcases List.mem_cons.mp ((insertSorted_perm s xs).mem_iff.mp hy) with rfl | hy'
      · exact le_of_not_le hle
      · exact hx y hy'

lemma sortStr_perm (l : List String) : (sortStr l).Perm l := by
  induction l with
  | nil => exact List.Perm.refl _
  | cons x xs ih => exact (insertSorted_perm x (sortStr xs)).trans (ih.cons x)

lemma sortStr_pairwise (l : List String) : (sortStr l).Pairwise (· ≤ ·) := by
  induction l with
  | nil => simp [sortStr]
  | cons x xs ih => exact insertSorted_pairwise x (sortStr xs) ih

lemma dedupBy_id_nodup (l : List String) : (dedupBy id [] l).Nodup := by
  have h := dedupBy_keys_nodup id [] l
  rwa [List.map_id] at h

/-- Modelled from the spec: claim C7's missing-skill list with "the same
cap and the same formatting" as the matched list — display count 15,
alphabetical order, title case. -/
def specMissingSkills (p : Profile) (c : Corpus) (text : String) : List String :=
  (sortStr ((dedupBy id [] (foundGlobalLabels c text)).filter
    (fun s => decide (s ∉ foundMineLabels p text)))).take 15

/-- C7 (amended): `matching_skills` is the candidate's skills present in
the text, title-cased, deduplicated, alphabetically sorted and capped at
15; `missing_skills` is the corpus skills present in the text and absent
from the candidate's full matched label list, title-cased, *capped at 10*
(not the matched list's 15) and in the iteration order of a Python set
(modelled as first-discovery order), not alphabetical order. -/
theorem C7_skill_lists :
    ∀ (p : Profile) (c : Corpus) (cfgW : List (String × ℚ)) (j : Job),
      ((enrichJobData p c cfgW j).matching_skills =
          String.intercalate ", " (matchingSkillsList p (scoringText j)) ∧
        (matchingSkillsList p (scoringText j)).Pairwise (· ≤ ·) ∧
        (matchingSkillsList p (scoringText j)).Nodup ∧
        (matchingSkillsList p (scoringText j)).length ≤ 15 ∧
        ∀ s ∈ matchingSkillsList p (scoringText j), s ∈ foundMineLabels p (scoringText j)) ∧
      ((enrichJobData p c cfgW j).missing_skills =
          String.intercalate ", " (missingSkillsList p c (scoringText j)) ∧
        (missingSkillsList p c (scoringText j)).length ≤ 10 ∧
        ∀ s ∈ missingSkillsList p c (scoringText j),
          s ∈ foundGlobalLabels c (scoringText j) ∧ s ∉ foundMineLabels p (scoringText j)) := by
  intro p c cfgW j
  refine ⟨⟨rfl, ?_, ?_, ?_, ?_⟩, rfl, ?_, ?_⟩
  · exact (sortStr_pairwise _).sublist (List.take_sublist _ _)
  · exact ((sortStr_perm _).nodup_iff.mpr (dedupBy_id_nodup _)).sublist
      (List.take_sublist _ _)
  · exact List.length_take_le _ _
  · intro s hs
    have h1 : s ∈ sortStr (dedupBy id [] (foundMineLabels p (scoringText j))) :=
      List.take_subset _ _ hs
    have h2 : s ∈ dedupBy id [] (foundMineLabels p (scoringText j)) :=
      (sortStr_perm _).mem_iff.mp h1
    exact (dedupBy_sublist id [] _).subset h2
  · exact List.length_take_le _ _
  · intro s hs
    have h1 : s ∈ (dedupBy id [] (foundGlobalLabels c (scoringText j))).filter
        (fun s => decide (s ∉ foundMineLabels p (scoringText j))) :=
      List.take_subset _ _ hs
    obtain ⟨h2, h3⟩ := List.mem_filter.mp h1
    exact ⟨(dedupBy_sublist id [] _).subset h2, of_decide_eq_true h3⟩

/-- C7 counterexample: twelve corpus skills present in the text and none
matched by the (empty) profile.  The claim's "same cap and same
formatting" (display count 15, as for the matched list) would keep all
twelve; the code emits only ten. -/
theorem C7_missing_cap_counterexample :
    (enrichJobData emptyProfile
        [("misc", [SkillEntry.plain "aa", .plain "bb", .plain "cc", .plain "dd", .plain "ee",
          .plain "ff", .plain "gg", .plain "hh", .plain "ii", .plain "jj", .plain "kk",
          .plain "ll"])] []
        { description := "aa bb cc dd ee ff gg hh ii jj kk ll" }).missing_skills =
      "Aa, Bb, Cc, Dd, Ee, Ff, Gg, Hh, Ii, Jj" ∧
    (specMissingSkills emptyProfile
        [("misc", [SkillEntry.plain "aa", .plain "bb", .plain "cc", .plain "dd", .plain "ee",
          .plain "ff", .plain "gg", .plain "hh", .plain "ii", .plain "jj", .plain "kk",
          .plain "ll"])]
        (scoringText { description := "aa bb cc dd ee ff gg hh ii jj kk ll" })).length = 12 := by
  constructor
  · decide
  · show ((sortStr _).take 15).length = 12
    rw [List.length_take, (sortStr_perm _).length_eq]
    norm_num
    decide

/-- Witness for C7: a concretely matched skill label is reported among the
candidate's present skills. -/
theorem C7_skill_lists_witness :
    "Python" ∈ foundMineLabels { programming := [SkillEntry.plain "python"] }
      (scoringText { title := "Python dev" }) :=
  (C7_skill_lists { programming := [SkillEntry.plain "python"] } [] []
      { title := "Python dev" }).1.2.2.2.2 "Python" (by decide)

/-! ### Claim C8: search-phase failure containment and retries -/

lemma flatMap_eq_nil_of {α β : Type} (f : α → List β) (l : List α)
    (h : ∀ x ∈ l, f x = []) : l.flatMap f = [] := by
  induction l with
  | nil => rfl
  | cons x xs ih =>
    rw [List.flatMap_cons, h x (List.mem_cons_self _ _), List.nil_append]
    exact ih (fun y hy => h y (List.mem_cons_of_mem _ hy))

/-- C8: no provider failure escapes the per-(query, location) loop.  A
location-filtering provider makes exactly one call whatever the outcome,
and accepts a zero-result response as final with no back-off sleep; a
non-location-filtering provider whose calls all raise, or all return zero
results, makes exactly `MAX_RETRIES_PER_QUERY` (= 2) calls with one
back-off sleep before the retry and contributes zero records; a provider
whose calls all raise contributes zero records over all its queries and
locations; and the downstream pipeline run on an empty collection
completes normally with zero records. -/
theorem C8_retry_and_failure_containment :
    (∀ oc : ℕ → Outcome, (runQueryLoc true oc).calls = 1) ∧
    (∀ oc : ℕ → Outcome, (∀ n, oc n = Outcome.raises) →
      runQueryLoc false oc = ⟨[], MAX_RETRIES_PER_QUERY, 1⟩) ∧
    (∀ oc : ℕ → Outcome, (∀ n, oc n = Outcome.results []) →
      runQueryLoc false oc = ⟨[], MAX_RETRIES_PER_QUERY, 1⟩ ∧
        runQueryLoc true oc = ⟨[], 1, 0⟩) ∧
    (∀ (s : Bool) (qs ls : List String) (oc : String → String → ℕ → Outcome),
      (∀ q l n, oc q l n = Outcome.raises) → providerCollected s qs ls oc = []) ∧
    (∀ (p : Profile) (c : Corpus) (cfgW : List (String × ℚ)),
      runPipeline p c cfgW [] = []) := by
  refine ⟨?_, ?_, ?_, ?_, ?_⟩
  · intro oc
    show (runAttempts true oc 0 1).calls = 1
    rw [runAttempts]
    cases oc 0 with
    | raises => rfl
    | results js => cases js <;> rfl
  · intro oc h
    show runAttempts false oc 0 MAX_RETRIES_PER_QUERY = _
    rw [show MAX_RETRIES_PER_QUERY = 2 from rfl]
    rw [runAttempts, h 0]
    rw [runAttempts, h 1]
    rfl
  · intro oc h
    constructor
    · show runAttempts false oc 0 MAX_RETRIES_PER_QUERY = _
      rw [show MAX_RETRIES_PER_QUERY = 2 from rfl]
      rw [runAttempts, h 0]
      rw [runAttempts, h 1]
      rfl
    · show runAttempts true oc 0 1 = _
      rw [runAttempts, h 0]
      rfl
  · intro s qs ls oc h
    apply flatMap_eq_nil_of
    intro q _
    apply flatMap_eq_nil_of
    intro l _
    cases s
    · have := (by
        intro oc' h'
        show runAttempts false oc' 0 MAX_RETRIES_PER_QUERY = QLResult.mk [] 2 1
        rw [show MAX_RETRIES_PER_QUERY = 2 from rfl]
        rw [runAttempts, h' 0]
        rw [runAttempts, h' 1]
        rfl : ∀ oc' : ℕ → Outcome, (∀ n, oc' n = Outcome.raises) →
          runQueryLoc false oc' = ⟨[], 2, 1⟩)
      rw [this (oc q l) (fun n => h q l n)]
    · show (runAttempts true (oc q l) 0 1).jobs = []
      rw [runAttempts, h q l 0]
      rfl
  · intro p c cfgW
    rfl

/-- Witness for C8: the all-raising oracle at a concrete provider setup. -/
theorem C8_retry_and_failure_containment_witness :
    runQueryLoc false (fun _ => Outcome.raises) = ⟨[], MAX_RETRIES_PER_QUERY, 1⟩ ∧
      providerCollected false ["q1"] ["Berlin"] (fun _ _ _ => Outcome.raises) = [] := by
  refine ⟨?_, ?_⟩
  · exact C8_retry_and_failure_containment.2.1 (fun _ => Outcome.raises) (fun _ => rfl)
  · exact C8_retry_and_failure_containment.2.2.2.1 false ["q1"] ["Berlin"]
      (fun _ _ _ => Outcome.raises) (fun _ _ _ => rfl)

/-! ### Claim C9: salary-hint frame condition -/

/-- C9: enrichment leaves a non-empty `salary_hint` untouched and derives
an empty one as the first match of the salary pattern in the raw
description (empty string when nothing matches).  The concrete conjuncts
exercise the pattern: a labelled thousands-separated Euro amount, a
labelled `k`-shorthand Dollar amount, and a description with no match. -/
theorem C9_salary_hint_frame :
    (∀ (p : Profile) (c : Corpus) (cfgW : List (String × ℚ)) (j : Job),
      (enrichJobData p c cfgW j).salary_hint =
        if j.salary_hint = "" then extractSalary j.description else j.salary_hint) ∧
    (∀ (p : Profile) (c : Corpus) (cfgW : List (String × ℚ)) (j : Job),
      j.salary_hint ≠ "" → (enrichJobData p c cfgW j).salary_hint = j.salary_hint) ∧
    extractSalary "Contract. Gehalt: 95.000 € fixed" = "95.000 €" ∧
    extractSalary "Salary: $120k plus bonus" = "$120k" ∧
    extractSalary "Python developer wanted" = "" := by
  refine ⟨fun p c cfgW j => rfl, ?_, by decide, by decide, by decide⟩
  intro p c cfgW j h
  show (if j.salary_hint = "" then extractSalary j.description else j.salary_hint) =
    j.salary_hint
  rw [if_neg h]

/-- Witness for C9: an adapter-set salary hint survives enrichment even
though the description carries a matching salary pattern. -/
theorem C9_salary_hint_frame_witness :
    (enrichJobData emptyProfile [] []
        { salary_hint := "€80", description := "Salary: $99k" }).salary_hint = "€80" :=
  C9_salary_hint_frame.2.1 emptyProfile [] []
    { salary_hint := "€80", description := "Salary: $99k" } (by decide)

/-! ### Claim C10: manual-mode stub synthesis -/

/-- A `find?` hit is the first list element satisfying the predicate. -/
lemma find?_eq_some_first {α : Type} (p : α → Bool) :
    ∀ (l : List α) (x : α),
      l.find? p = some x ↔
        ∃ pre post, l = pre ++ x :: post ∧ p x = true ∧ ∀ y ∈ pre, p y = false := by
  intro l
  induction l with
  | nil =>
    intro x
    constructor
    · intro h; cases h
    · rintro ⟨pre, post, h, _, _⟩
      exact absurd h (by simp)
  | cons a rest ih =>
    intro x
    cases hpa : p a with
    | true =>
      simp only [List.find?_cons, hpa]
      constructor
      · intro h
        obtain rfl := Option.some.inj h
        exact ⟨[], rest, rfl, hpa, fun y hy => absurd hy (List.not_mem_nil y)⟩
      · rintro ⟨pre, post, heq, hpx, hpre⟩
        cases pre with
        | nil =>
          rw [List.nil_append] at heq
          injection heq with h1 _
          rw [h1]
        | cons a' pre' =>
          rw [List.cons_append] at heq
          injection heq with h1 _
          subst h1
          have := hpre a (List.mem_cons_self _ _)
          rw [hpa] at this
          cases this
    | false =>
      simp only [List.find?_cons, hpa]
      rw [ih x]
      constructor
      · rintro ⟨pre, post, heq, hpx, hpre⟩
        refine ⟨a :: pre, post, by rw [List.cons_append, heq], hpx, ?_⟩
        intro y hy
        rcases List.mem_cons.mp hy with rfl | hy'
        · exact hpa
        · exact hpre y hy'
      · rintro ⟨pre, post, heq, hpx, hpre⟩
        cases pre with
        | nil =>
          rw [List.nil_append] at heq
          injection heq with h1 _
          rw [← h1] at hpx
          rw [hpa] at hpx
          cases hpx
        | cons a' pre' =>
          rw [List.cons_append] at heq
          injection heq with h1 h2
          subst h1
          exact ⟨pre', post, h2, hpx, fun y hy => hpre y (List.mem_cons_of_mem _ hy)⟩

/-- C10: manual mode synthesizes one stub per CSV row with a truthy link
(rows with an absent or empty link are skipped entirely), in row order;
each stub carries relevance score 0 and placeholder title/company; its
provider is the first registry entry — in the registry's fixed order —
whose domain pattern occurs in the lowered URL, falling back to
"linkedin" when no pattern matches. -/
theorem C10_manual_mode_stub_synthesis :
    (∀ (ts sa nm : String) (rows : List (Option String)),
      run_manual_mode ts sa nm rows =
        ((rows.filterMap id).filter (fun l => decide (l ≠ ""))).map (manualStub ts sa nm)) ∧
    (∀ ts sa nm link, (manualStub ts sa nm link).relevance_score = 0 ∧
      (manualStub ts sa nm link).title = "Pending Extraction..." ∧
      (manualStub ts sa nm link).company = "Pending Extraction..." ∧
      (manualStub ts sa nm link).provider = (get_provider_key_from_url link).getD "linkedin") ∧
    (∀ url k : String,
      get_provider_key_from_url url = some k ↔
        ∃ pre e post, registryEntries = pre ++ e :: post ∧ e.1 = k ∧
          containsSubStr (pyLower url) e.2 = true ∧
          ∀ e' ∈ pre, containsSubStr (pyLower url) e'.2 = false) ∧
    (∀ url : String, get_provider_key_from_url url = none ↔
      ∀ e ∈ registryEntries, containsSubStr (pyLower url) e.2 = false) := by
  refine ⟨?_, fun ts sa nm link => ⟨rfl, rfl, rfl, rfl⟩, ?_, ?_⟩
  · intro ts sa nm rows
    show rows.foldr _ [] = _
    induction rows with
    | nil => rfl
    | cons x xs ih =>
      rw [List.foldr_cons, ih]
      cases x with
      | none => simp
      | some l =>
        by_cases hl : l = ""
        · subst hl; simp
        · simp [hl]
  · intro url k
    unfold get_provider_key_from_url
    rw [Option.map_eq_some']
    constructor
    · rintro ⟨e, hfind, hk⟩
      obtain ⟨pre, post, heq, hpe, hpre⟩ := (find?_eq_some_first _ _ e).mp hfind
      exact ⟨pre, e, post, heq, hk, hpe, hpre⟩
    · rintro ⟨pre, e, post, heq, hk, hpe, hpre⟩
      exact ⟨e, (find?_eq_some_first _ _ e).mpr ⟨pre, post, heq, hpe, hpre⟩, hk⟩
  · intro url
    unfold get_provider_key_from_url
    rw [Option.map_eq_none', List.find?_eq_none]
    constructor
    · intro h e he
      have := h e he
      simpa using this
    · intro h e he
      simp [h e he]

/-- Witness for C10: the registry's first matching entry identifies a GULP
link, via the explicit decomposition of the registry list. -/
theorem C10_manual_mode_stub_synthesis_witness :
    get_provider_key_from_url "https://www.GULP.de/job/123" = some "gulp" :=
  (C10_manual_mode_stub_synthesis.2.2.1 "https://www.GULP.de/job/123" "gulp").mpr
    ⟨[("linkedin", "linkedin.com"), ("hays", "hays.de"), ("solcom", "solcom.de"),
      ("freelancermap", "freelancermap.de"), ("xing", "xing.com")], ("gulp", "gulp.de"),
      [("freelance_de", "freelance.de"), ("ferchau", "ferchau.com")],
      rfl, rfl, by decide, by decide⟩
